import Mathlib

/-!
Verification development for the real-time audio core of the ElderMe
telephony server (`server.js`, Twilio Media Streams variant).

Shallow embedding conventions:
* byte buffers are `List Nat` (each element is one byte, reduced mod 256
  where the source applies an `& 0xff` mask);
* signed 16-bit PCM samples are `Int` (the source reads them with
  `readInt16LE`, so they always lie in `[-32768, 32767]`);
* the JavaScript real-number VAD threshold comparison is carried out
  exactly over the integers (see `vadIsSpeech`), and the division-by-zero
  NaN produced by `0 / 0` on an empty frame is modelled as `Option.none`;
* asynchronous collaborator calls (speech recognition, chat generation,
  speech synthesis) are parameters / emitted events, since they are
  external services outside this core.
-/

/-! ## Codec: mu-law decode (source: `decodeMulawToPcm16`) -/

/-- One step of `decodeMulawToPcm16`: the body of the loop for a single
byte `b` of the incoming mu-law buffer.  Mirrors
`u = (~b) & 0xff; t = ((u & 0x0f) << 3) + 0x84; t <<= (u & 0x70) >> 4;
s = (u & 0x80) ? 0x84 - t : t - 0x84`.
For `b < 256`, `(~b) & 0xff = 255 - b`. -/
def mulawDecodeSample (b : Nat) : Int :=
  let u := 255 - b % 256
  let t := ((u % 16) * 8 + 132) * 2 ^ (u / 16 % 8)
  if 128 ≤ u then 132 - (t : Int) else (t : Int) - 132

/-- `writeInt16LE`: the two-byte little-endian encoding of a signed 16-bit
value, as `Buffer.writeInt16LE` stores it. -/
def int16LE (s : Int) : List Nat :=
  let w := (s % 65536).toNat
  [w % 256, w / 256]

/-- `readInt16LE` of a two-byte little-endian pair. -/
def readInt16LE (lo hi : Nat) : Int :=
  let w := lo % 256 + 256 * (hi % 256)
  if 32768 ≤ w then (w : Int) - 65536 else (w : Int)

/-- `decodeMulawToPcm16(muBuf)`: allocates a buffer of twice the length and
writes one little-endian 16-bit sample per input byte. -/
def decodeMulawToPcm16 (muBuf : List Nat) : List Nat :=
  (muBuf.map fun b => int16LE (mulawDecodeSample b)).flatten

/-- The sample-level view of `decodeMulawToPcm16`: the sequence of signed
16-bit samples that `readInt16LE` recovers from the produced byte buffer
(see `readPcm16_decodeMulawToPcm16`, which proves the two views agree). -/
def decodeFrameSamples (muBuf : List Nat) : List Int :=
  muBuf.map mulawDecodeSample

/-- Reading a PCM16-LE byte buffer back into samples, two bytes at a time
(the `pcm.readInt16LE(i)` view used by the VAD loop). -/
def readPcm16 : List Nat → List Int
  | lo :: hi :: rest => readInt16LE lo hi :: readPcm16 rest
  | _ => []

/-! ## Codec: mu-law encode (source: `pcm16ToMulawSample`) -/

/-- The exponent search loop
`for (expMask = 0x4000; (sample & expMask) === 0 && exponent > 0; exponent--, expMask >>= 1)`.
`mulawExpSearch s e` returns the largest `k ≤ e` such that bit `k + 7` of
`s` is set, or `0` if there is none. -/
def mulawExpSearch (s : Nat) : Nat → Nat
  | 0 => 0
  | e + 1 => if s / 2 ^ (e + 8) % 2 = 0 then mulawExpSearch s e else e + 1

/-- `pcm16ToMulawSample(sample)`: sign from the top bit, magnitude clamp at
32635, bias 0x84, exponent by highest-set-bit search, mantissa extraction,
bitwise-inverted assembly.  Note the source shifts by `4` (not the
standard `exponent + 3 = 3`) in the `exponent === 0` case. -/
def pcm16ToMulawSample (sample : Int) : Nat :=
  let sign : Nat := if sample < 0 then 128 else 0
  let mag : Int := if sample < 0 then -sample else sample
  let mag : Int := if 32635 < mag then 32635 else mag
  let s : Nat := (mag + 132).toNat
  let e : Nat := mulawExpSearch s 7
  let mantissa : Nat := s / 2 ^ (if e = 0 then 4 else e + 3) % 16
  255 - (sign + 16 * e + mantissa)

/-- `encodePcm16ToMulaw`, at the sample level: one mu-law byte per sample. -/
def encodePcm16ToMulaw (pcm : List Int) : List Nat :=
  pcm.map pcm16ToMulawSample

/-- Modelled from the spec: the standard G.711 mu-law encoder the spec
requires bit-exactness with ("must be bit-exact with standard logarithmic
companding").  It is identical to `pcm16ToMulawSample` except that the
mantissa shift is `exponent + 3` uniformly, which is what every compliant
reference implementation uses (and what makes the repository's own decoder
`mulawDecodeSample` an approximate inverse). -/
def mulawEncodeRef (sample : Int) : Nat :=
  let sign : Nat := if sample < 0 then 128 else 0
  let mag : Int := if sample < 0 then -sample else sample
  let mag : Int := if 32635 < mag then 32635 else mag
  let s : Nat := (mag + 132).toNat
  let e : Nat := mulawExpSearch s 7
  let mantissa : Nat := s / 2 ^ (e + 3) % 16
  255 - (sign + 16 * e + mantissa)

/-! ## Voice activity detection (source: the RMS loop of the media handler) -/

/-- Sum of squared samples, the accumulator of the VAD loop (the source
normalizes each sample by 32768 before squaring; we keep the exact integer
sum and fold the normalization into the threshold comparison). -/
def sumSquares (pcm : List Int) : Int :=
  (pcm.map fun s => s * s).sum

/-- `isSpeech = rms > 0.015` where
`rms = sqrt((sum of (s/32768)^2) / n)`.  For `n > 0` this is equivalent to
the exact integer comparison `40000 * sumSquares > 9 * 2^30 * n`
(squaring both sides of the comparison with `0.015 = 3/200`).  For `n = 0`
the source computes `sqrt(0 / 0) = NaN` and `NaN > 0.015` is `false`,
which the comparison below also yields (`0 > 0`). -/
def vadIsSpeech (pcm : List Int) : Bool :=
  decide (9 * 1073741824 * (pcm.length : Int) < 40000 * sumSquares pcm)

/-- The squared RMS energy as an exact rational, `none` modelling the NaN
that `rms / (pcm.length / 2)` produces on a zero-length frame.  (The
source's `rms` is the square root of this; the square root is zero exactly
when this is zero, so energy-is-zero claims are stated on it.) -/
def rmsSquared (pcm : List Int) : Option ℚ :=
  if pcm.length = 0 then none
  else some ((sumSquares pcm : ℚ) / ((1073741824 : ℚ) * pcm.length))

/-! ## Call session state (source: `makeState` and the `ws.on("message")`
media handler) -/

/-- Message roles of the conversation history. -/
inductive Role
  | user
  | assistant
deriving DecidableEq

/-- One entry of `state.context`. -/
structure ChatMsg where
  role : Role
  content : String
deriving DecidableEq

/-- The mutable per-call state created by `makeState` (the socket and the
stream/call identifiers are connection plumbing and are not part of the
model).  `nudgeTimer` records whether a nudge timeout is currently
scheduled. -/
structure SessState where
  listening : Bool
  heardAnySpeech : Bool
  pcmBuffer : List (List Int)
  silenceFrames : Nat
  context : List ChatMsg
  nudgeTimer : Bool
deriving DecidableEq

/-- `makeState`: fresh session state. -/
def makeState : SessState :=
  { listening := true, heardAnySpeech := false, pcmBuffer := [],
    silenceFrames := 0, context := [], nudgeTimer := false }

/-- `scheduleNudge`: replaces any pending nudge timer with a fresh one. -/
def scheduleNudge (st : SessState) : SessState :=
  { st with nudgeTimer := true }

/-- The `data.event === "media"` branch of the message handler, at the
turn-segmenter level: decode the frame, accumulate it, classify it with
the VAD, count silence, and on the twelfth consecutive silence frame after
speech run the buffer-draining part of `finalizeTurn` (the drained PCM —
the `Buffer.concat(state.pcmBuffer)` handed to recognition — is returned
as the second component; the asynchronous recognition/generation/speaking
tail of `finalizeTurn` is modelled separately by `finalizeTurn` below). -/
def mediaStep (st : SessState) (mu : List Nat) : SessState × Option (List Int) :=
  if st.listening = false then (st, none) else
  let pcm := decodeFrameSamples mu
  let st1 : SessState := { st with pcmBuffer := st.pcmBuffer ++ [pcm] }
  if vadIsSpeech pcm then
    ({ st1 with heardAnySpeech := true, silenceFrames := 0, nudgeTimer := false }, none)
  else
    let st2 : SessState := { st1 with silenceFrames := st1.silenceFrames + 1 }
    if st2.heardAnySpeech && decide (12 ≤ st2.silenceFrames) then
      let st3 : SessState := { st2 with heardAnySpeech := false }
      if st3.pcmBuffer = [] then (st3, none)
      else ({ st3 with pcmBuffer := [], silenceFrames := 0 }, some st3.pcmBuffer.flatten)
    else (st2, none)

/-- Processing a sequence of inbound media frames, collecting every
finalized turn audio handed to the orchestrator. -/
def runFrames (st : SessState) (frames : List (List Nat)) : SessState × List (List Int) :=
  match frames with
  | [] => (st, [])
  | f :: rest =>
    let step := mediaStep st f
    let restRun := runFrames step.1 rest
    (restRun.1, step.2.toList ++ restRun.2)

/-! ## Turn orchestrator (source: `finalizeTurn`) -/

/-- The result of `transcribeWhisper` as observed by `finalizeTurn`:
`Except.error` models a thrown error (caught, leaving `text = ""`),
`Except.ok` the trimmed transcript. -/
def sttText : Except Unit String → String
  | .ok t => t
  | .error _ => ""

/-- The fixed fallback line used both when `chatReply` throws and when the
completion content is empty. -/
def fallbackReply : String := "I’m here with you. Tell me more about that."

/-- Observable collaborator invocations made by one `finalizeTurn` run. -/
inductive TurnEvent
  | recognize (pcm : List Int)
  | generate (prompt : List ChatMsg)
  | speak (text : String)
deriving DecidableEq

/-- `finalizeTurn(state)`, parameterized by the outcomes of the
recognition and generation collaborators: no-op on an empty buffer;
otherwise concatenate and clear the buffer, transcribe, abort silently on
empty text, else append the user entry, obtain a reply (fixed fallback on
failure or empty content), append the assistant entry, and speak it
(`speakText` clears `listening` for the duration of streaming and on its
`finally` path restores `listening := true` and reschedules the nudge
timer; the state returned here is the post-`speakText` state). -/
def finalizeTurn (stt gen : Except Unit String) (st : SessState) :
    SessState × List TurnEvent :=
  if st.pcmBuffer = [] then (st, []) else
  let pcm := st.pcmBuffer.flatten
  let st1 : SessState := { st with pcmBuffer := [], silenceFrames := 0 }
  let text := sttText stt
  if text = "" then (st1, [TurnEvent.recognize pcm])
  else
    let st2 : SessState := { st1 with context := st1.context ++ [⟨Role.user, text⟩] }
    let reply : String :=
      match gen with
      | .ok r => if r = "" then fallbackReply else r
      | .error _ => fallbackReply
    let st3 : SessState := { st2 with context := st2.context ++ [⟨Role.assistant, reply⟩] }
    let st4 : SessState := { st3 with listening := true, nudgeTimer := true }
    (st4, [TurnEvent.recognize pcm, TurnEvent.generate st2.context, TurnEvent.speak reply])

/-- The session state observable during the Processing window: the
synchronous prefix of `finalizeTurn` up to its first `await`
(`Buffer.concat` then `state.pcmBuffer = []; state.silenceFrames = 0`)
runs before `transcribeWhisper` is awaited, and this is the state the
message handler sees for any media frame that arrives while
`finalizeTurn` is suspended on the recognition or generation call.
Nothing in that window touches `listening` (only `speakText`, entered
after both awaits, clears it), and the caller of `finalizeTurn` has just
reset `heardAnySpeech` to false. -/
def finalizeDrainState (st : SessState) : SessState :=
  if st.pcmBuffer = [] then st
  else { st with pcmBuffer := [], silenceFrames := 0 }

/-! ## Frame scheduler (source: `sendMulawStream`) -/

/-- Observable actions of `sendMulawStream`: an outbound media message
carrying one frame, or a timed suspension of the sending task. -/
inductive OutEvent
  | send (frame : List Nat)
  | sleep (ms : Nat)
deriving DecidableEq

/-- `sendMulawStream(ws, streamSid, mulawBuf)`: step through the buffer in
160-byte slices; before each send check `ws.readyState === 1` (modelled by
`ready i` for the check before the `i`-th frame) and stop silently if the
connection is not open; after each send suspend for 20 ms. -/
def sendMulawStream (ready : Nat → Bool) : Nat → List Nat → List OutEvent
  | _, [] => []
  | i, b :: rest =>
    if ready i then
      OutEvent.send ((b :: rest).take 160) :: OutEvent.sleep 20 ::
        sendMulawStream ready (i + 1) ((b :: rest).drop 160)
    else []
termination_by _ l => l.length
decreasing_by simp [List.length_drop]; omega

/-- The slicing of a payload into 160-byte frames (the sequence of
`mulawBuf.subarray(off, min(off + 160, len))` values the loop sends). -/
def chunks160 : List Nat → List (List Nat)
  | [] => []
  | b :: rest => (b :: rest).take 160 :: chunks160 ((b :: rest).drop 160)
termination_by l => l.length
decreasing_by simp [List.length_drop]; omega

/-! ## Connection teardown (source: the `stop` branch of the message
handler and the `ws.on("close")` handler) -/

/-- Connection-level teardown state: whether the keepalive ping interval
is active, whether the handler-scoped `state` variable still holds a
session, and whether a nudge timeout is pending. -/
structure ConnState where
  keepaliveActive : Bool
  hasSession : Bool
  nudgeTimerPending : Bool
deriving DecidableEq

/-- `ws.on("close", () => clearInterval(ka))`: the close handler clears
only the keepalive interval. -/
def onSocketClose (c : ConnState) : ConnState :=
  { c with keepaliveActive := false }

/-- The `data.event === "stop"` branch:
`if (state?.nudgeTimer) clearTimeout(state.nudgeTimer); state = null` —
the nudge timer is cancelled only when a session is still held, and the
session reference is dropped. -/
def onStopMessage (c : ConnState) : ConnState :=
  { c with nudgeTimerPending := c.nudgeTimerPending && !c.hasSession,
           hasSession := false }

/-! ## Helper lemmas -/

theorem readInt16LE_int16LE (s : Int) (h1 : -32768 ≤ s) (h2 : s < 32768) :
    readInt16LE ((s % 65536).toNat % 256) ((s % 65536).toNat / 256) = s := by
  simp only [readInt16LE]
  split <;> omega

set_option maxRecDepth 8000 in
theorem mulawDecodeSample_bounds_aux :
    ∀ v : Fin 256, -32124 ≤ mulawDecodeSample v.1 ∧ mulawDecodeSample v.1 ≤ 32124 := by decide

theorem mulawDecodeSample_bounds (b : Nat) :
    -32124 ≤ mulawDecodeSample b ∧ mulawDecodeSample b ≤ 32124 := by
  have e : b % 256 % 256 = b % 256 := Nat.mod_mod_of_dvd b dvd_rfl
  have h : mulawDecodeSample b = mulawDecodeSample (b % 256) := by
    simp [mulawDecodeSample, e]
  rw [h]
  exact mulawDecodeSample_bounds_aux ⟨b % 256, Nat.mod_lt _ (by norm_num)⟩

theorem readPcm16_decodeMulawToPcm16 (muBuf : List Nat) :
    readPcm16 (decodeMulawToPcm16 muBuf) = decodeFrameSamples muBuf := by
  induction muBuf with
  | nil => rfl
  | cons b rest ih =>
    have hb := mulawDecodeSample_bounds b
    show readPcm16 (int16LE (mulawDecodeSample b) ++ _) = _
    rw [show int16LE (mulawDecodeSample b)
          = [((mulawDecodeSample b % 65536).toNat) % 256,
             ((mulawDecodeSample b % 65536).toNat) / 256] from rfl]
    rw [List.cons_append, List.cons_append, List.nil_append]
    show readInt16LE _ _ :: readPcm16 _ = _
    rw [readInt16LE_int16LE (mulawDecodeSample b) (by omega) (by omega)]
    rw [show ((List.map (fun x => int16LE (mulawDecodeSample x)) rest).flatten)
          = decodeMulawToPcm16 rest from rfl]
    rw [ih]
    rfl

theorem decodeMulawToPcm16_length (muBuf : List Nat) :
    (decodeMulawToPcm16 muBuf).length = 2 * muBuf.length := by
  induction muBuf with
  | nil => rfl
  | cons b rest ih =>
    show ((List.map _ (b :: rest)).flatten).length = _
    rw [List.map_cons, List.flatten_cons, List.length_append]
    rw [show (int16LE (mulawDecodeSample b)).length = 2 from rfl]
    rw [show ((List.map (fun x => int16LE (mulawDecodeSample x)) rest).flatten)
          = decodeMulawToPcm16 rest from rfl]
    rw [ih]
    simp only [List.length_cons]
    omega

theorem send_eq_chunks (n : Nat) : ∀ buf : List Nat, buf.length ≤ n → ∀ i : Nat,
    sendMulawStream (fun _ => true) i buf
      = ((chunks160 buf).map fun f => [OutEvent.send f, OutEvent.sleep 20]).flatten := by
  induction n with
  | zero =>
    intro buf hb i
    have hbuf : buf = [] := List.length_eq_zero.mp (Nat.le_zero.mp hb)
    subst hbuf
    simp [sendMulawStream, chunks160]
  | succ n ih =>
    intro buf hb i
    match buf with
    | [] => simp [sendMulawStream, chunks160]
    | b :: rest =>
      rw [sendMulawStream, chunks160]
      simp only [if_true]
      rw [ih ((b :: rest).drop 160)
            (by simp only [List.length_drop, List.length_cons] at hb ⊢; omega) (i + 1)]
      simp

theorem chunks160_length (n : Nat) : ∀ buf : List Nat, buf.length ≤ n →
    (chunks160 buf).length = (buf.length + 159) / 160 := by
  induction n with
  | zero =>
    intro buf hb
    have hbuf : buf = [] := List.length_eq_zero.mp (Nat.le_zero.mp hb)
    subst hbuf
    simp [chunks160]
  | succ n ih =>
    intro buf hb
    match buf with
    | [] => simp [chunks160]
    | b :: rest =>
      rw [chunks160]
      rw [List.length_cons, ih ((b :: rest).drop 160)
            (by simp only [List.length_drop, List.length_cons] at hb ⊢; omega)]
      simp only [List.length_drop, List.length_cons]
      omega

theorem chunks160_flatten (n : Nat) : ∀ buf : List Nat, buf.length ≤ n →
    (chunks160 buf).flatten = buf := by
  induction n with
  | zero =>
    intro buf hb
    have hbuf : buf = [] := List.length_eq_zero.mp (Nat.le_zero.mp hb)
    subst hbuf
    simp [chunks160]
  | succ n ih =>
    intro buf hb
    match buf with
    | [] => simp [chunks160]
    | b :: rest =>
      rw [chunks160, List.flatten_cons,
        ih ((b :: rest).drop 160)
          (by simp only [List.length_drop, List.length_cons] at hb ⊢; omega)]
      exact List.take_append_drop 160 (b :: rest)

theorem chunks160_short (n : Nat) : ∀ buf : List Nat, buf.length ≤ n →
    ∀ f ∈ chunks160 buf, f.length ≤ 160 := by
  induction n with
  | zero =>
    intro buf hb
    have hbuf : buf = [] := List.length_eq_zero.mp (Nat.le_zero.mp hb)
    subst hbuf
    simp [chunks160]
  | succ n ih =>
    intro buf hb
    match buf with
    | [] => simp [chunks160]
    | b :: rest =>
      rw [chunks160]
      intro f hf
      rcases List.mem_cons.mp hf with h | h
      · subst h; simp [List.length_take]
      · exact ih ((b :: rest).drop 160)
          (by simp only [List.length_drop, List.length_cons] at hb ⊢; omega) f h

theorem runFrames_append (a b : List (List Nat)) : ∀ st : SessState,
    runFrames st (a ++ b) =
      ((runFrames (runFrames st a).1 b).1,
       (runFrames st a).2 ++ (runFrames (runFrames st a).1 b).2) := by
  induction a with
  | nil => intro st; simp [runFrames]
  | cons f rest ih =>
    intro st
    simp only [List.cons_append, runFrames, List.append_eq]
    rw [ih]
    simp [List.append_assoc]

theorem speech_run (sF : List (List Nat)) : ∀ st : SessState,
    st.listening = true →
    (∀ f ∈ sF, vadIsSpeech (decodeFrameSamples f) = true) → sF ≠ [] →
    runFrames st sF =
      ({ st with heardAnySpeech := true, silenceFrames := 0, nudgeTimer := false,
                 pcmBuffer := st.pcmBuffer ++ sF.map decodeFrameSamples }, []) := by
  induction sF with
  | nil => intro st _ _ hne; exact absurd rfl hne
  | cons f rest ih =>
    intro st hl hs hne
    have hf : vadIsSpeech (decodeFrameSamples f) = true := hs f (by simp)
    have hstep : mediaStep st f =
        ({ st with pcmBuffer := st.pcmBuffer ++ [decodeFrameSamples f],
                   heardAnySpeech := true, silenceFrames := 0, nudgeTimer := false }, none) := by
      simp [mediaStep, hl, hf]
    by_cases hr : rest = []
    · subst hr
      simp [runFrames, hstep]
    · rw [runFrames, hstep]
      dsimp only
      rw [ih ({ st with pcmBuffer := st.pcmBuffer ++ [decodeFrameSamples f],
                        heardAnySpeech := true, silenceFrames := 0, nudgeTimer := false })
            hl (fun g hg => hs g (by simp [hg])) hr]
      simp [List.append_assoc]

theorem silence_run (silF : List (List Nat)) : ∀ st : SessState,
    st.listening = true → st.heardAnySpeech = true → st.pcmBuffer ≠ [] →
    st.silenceFrames + silF.length = 12 → silF ≠ [] →
    (∀ f ∈ silF, vadIsSpeech (decodeFrameSamples f) = false) →
    runFrames st silF =
      ({ st with heardAnySpeech := false, pcmBuffer := [], silenceFrames := 0 },
       [(st.pcmBuffer ++ silF.map decodeFrameSamples).flatten]) := by
  induction silF with
  | nil => intro st _ _ _ _ hne _; exact absurd rfl hne
  | cons f rest ih =>
    intro st hl hh hb hcount hne hsil
    have hf : vadIsSpeech (decodeFrameSamples f) = false := hsil f (by simp)
    by_cases hr : rest = []
    · subst hr
      have h11 : st.silenceFrames = 11 := by simpa using hcount
      have hbne : st.pcmBuffer ++ [decodeFrameSamples f] ≠ [] := by simp
      simp [runFrames, mediaStep, hl, hf, hh, h11, hbne]
    · have hc : ¬ (12 ≤ st.silenceFrames + 1) := by
        simp only [List.length_cons] at hcount
        have : 0 < rest.length := List.length_pos.mpr hr
        omega
      have hstep : mediaStep st f =
          ({ st with pcmBuffer := st.pcmBuffer ++ [decodeFrameSamples f],
                     silenceFrames := st.silenceFrames + 1 }, none) := by
        simp [mediaStep, hl, hf, hc]
      rw [runFrames, hstep]
      dsimp only
      rw [ih ({ st with pcmBuffer := st.pcmBuffer ++ [decodeFrameSamples f],
                        silenceFrames := st.silenceFrames + 1 })
            hl hh (by simp)
            (by show st.silenceFrames + 1 + rest.length = 12
                simp only [List.length_cons] at hcount
                omega)
            hr (fun g hg => hsil g (by simp [hg]))]
      simp [List.append_assoc]

/-! ## Claim theorems -/

set_option maxRecDepth 100000 in
/-- Claim C1, counterexample to the claim as stated: for one speech frame
(the mu-law byte 0x00, which decodes to -32124 and is classified speech)
followed by exactly twelve silence frames (byte 0xFF, decoding to 0), the
audio handed to the orchestrator is NOT the concatenation of the decoded
speech frames only — the handler pushes every frame, silence included,
into `pcmBuffer` before running the VAD, so the twelve trailing silence
frames are part of the finalized buffer. -/
theorem turnSegmenter_counterexample :
    (runFrames (scheduleNudge makeState) ([[0]] ++ List.replicate 12 [255])).2
      ≠ [(([[0]] : List (List Nat)).map decodeFrameSamples).flatten] := by decide

/-- Claim C1, amended: for every synthetic sequence of N ≥ 1 speech frames
(RMS above the threshold) followed by exactly `silenceFrameThreshold = 12`
silence frames, processed from a fresh listening session, the Turn
Segmenter finalizes exactly once, and the `pendingAudio` handed to the
Turn Orchestrator is the concatenation of ALL decoded frames up to and
including the triggering frame — the N speech frames followed by the 12
trailing silence frames (only frames after the trigger are excluded). -/
theorem turnSegmenter_spec (sF silF : List (List Nat))
    (hN : sF ≠ [])
    (hs : ∀ f ∈ sF, vadIsSpeech (decodeFrameSamples f) = true)
    (h12 : silF.length = 12)
    (hsil : ∀ f ∈ silF, vadIsSpeech (decodeFrameSamples f) = false) :
    (runFrames (scheduleNudge makeState) (sF ++ silF)).2
      = [((sF ++ silF).map decodeFrameSamples).flatten] := by
  have hsil_ne : silF ≠ [] := by
    intro h; rw [h] at h12; simp at h12
  rw [runFrames_append]
  rw [speech_run sF (scheduleNudge makeState) rfl hs hN]
  dsimp only
  rw [silence_run silF _ rfl rfl
        (by simpa [makeState, scheduleNudge] using hN)
        (by simpa [makeState, scheduleNudge] using h12)
        hsil_ne hsil]
  simp [makeState, scheduleNudge, List.append_assoc]

/-- Witness for `turnSegmenter_spec` at a concrete input: one speech frame
`[0x00]` and twelve silence frames `[0xFF]`. -/
theorem turnSegmenter_spec_witness :
    (([[0]] : List (List Nat)) ≠ [] ∧
      (List.replicate 12 ([255] : List Nat)).length = 12) ∧
    (runFrames (scheduleNudge makeState) ([[0]] ++ List.replicate 12 [255])).2
      = [(([[0]] ++ List.replicate 12 [255]).map decodeFrameSamples).flatten] :=
  ⟨⟨by decide, by decide⟩,
   turnSegmenter_spec [[0]] (List.replicate 12 [255])
     (by decide) (by decide) (by decide) (by decide)⟩

/-- Claim C2, confirmed: for every payload, the Frame Scheduler run over
an always-open connection emits, per 160-byte slice in order, one send
event immediately followed by a 20 ms suspension event; the slices number
exactly `ceil(length / 160)`, concatenate back to the payload (the last
slice may be shorter than 160 bytes and is sent unpadded), and each slice
is at most 160 bytes; in particular a 1600-byte payload yields exactly
`(1600 + 159) / 160 = 10` frames.  If the connection is observed closed at
the readiness check, the loop stops immediately with no further events
(and no error, the function being total). -/
theorem frameScheduler_spec (payload : List Nat) (ready : Nat → Bool) (i : Nat) :
    sendMulawStream (fun _ => true) 0 payload
      = ((chunks160 payload).map fun f => [OutEvent.send f, OutEvent.sleep 20]).flatten ∧
    (chunks160 payload).length = (payload.length + 159) / 160 ∧
    (chunks160 payload).flatten = payload ∧
    (∀ f ∈ chunks160 payload, f.length ≤ 160) ∧
    (ready i = false → sendMulawStream ready i payload = []) := by
  refine ⟨send_eq_chunks payload.length payload le_rfl 0,
          chunks160_length payload.length payload le_rfl,
          chunks160_flatten payload.length payload le_rfl,
          chunks160_short payload.length payload le_rfl, ?_⟩
  intro hclosed
  match payload with
  | [] => simp [sendMulawStream]
  | b :: rest => rw [sendMulawStream]; simp [hclosed]

/-- Witness for `frameScheduler_spec`: a closed connection emits nothing,
and a 1600-byte payload slices into exactly 10 frames. -/
theorem frameScheduler_spec_witness :
    ((fun _ => false) 0 = false) ∧
    sendMulawStream (fun _ => false) 0 [1, 2, 3] = [] ∧
    (chunks160 (List.replicate 1600 0)).length = 10 := by
  refine ⟨rfl, (frameScheduler_spec [1, 2, 3] (fun _ => false) 0).2.2.2.2 rfl, ?_⟩
  have h := (frameScheduler_spec (List.replicate 1600 0) (fun _ => true) 0).2.1
  have h2 : ((List.replicate 1600 (0 : Nat)).length + 159) / 160 = 10 := by
    norm_num [List.length_replicate]
  exact h.trans h2

/-- Claim C3, code bug, evaluated at the failing input `sample = 0`: the
encoder of the source returns `0xF7 = 247`, while the standard mu-law
encoder (`mulawEncodeRef`, which differs only in using the standard
mantissa shift `exponent + 3` in the `exponent = 0` segment) returns
`0xFF = 255`; the repository decoder maps the produced byte back to 64
but maps the standard byte back to 0, exhibiting the deviation with the
code base alone. -/
theorem encoder_deviation_at_zero :
    pcm16ToMulawSample 0 = 247 ∧ mulawEncodeRef 0 = 255 ∧
    mulawDecodeSample (pcm16ToMulawSample 0) = 64 ∧
    mulawDecodeSample (mulawEncodeRef 0) = 0 := by decide

/-- Claim C4, counterexample to the claim as stated: on a zero-length
frame the source computes `rms = sqrt(0 / 0) = NaN` (modelled as `none`),
not the claimed energy 0. -/
theorem vadEnergy_empty_counterexample : rmsSquared ([] : List Int) ≠ some 0 := by
  simp [rmsSquared]

/-- Claim C4, amended: a zero-length PCM frame yields `isSpeech = false`
with an undefined (NaN) energy rather than energy 0, and an all-zero
frame of any positive length yields `isSpeech = false` and energy 0;
neither case raises an error (the functions are total). -/
theorem vadZero_spec (pcm : List Int) (hz : ∀ s ∈ pcm, s = 0) :
    vadIsSpeech pcm = false ∧ (pcm ≠ [] → rmsSquared pcm = some 0) ∧
    vadIsSpeech ([] : List Int) = false ∧ rmsSquared ([] : List Int) = none := by
  have hsum : sumSquares pcm = 0 := by
    unfold sumSquares
    apply List.sum_eq_zero
    intro x hx
    obtain ⟨s, hs, rfl⟩ := List.mem_map.mp hx
    rw [hz s hs]; ring
  refine ⟨?_, ?_, by decide, by simp [rmsSquared]⟩
  · simp only [vadIsSpeech, hsum, mul_zero, decide_eq_false_iff_not, not_lt]
    positivity
  · intro hne
    have hlen : pcm.length ≠ 0 := by simpa [List.length_eq_zero] using hne
    simp [rmsSquared, hsum, hlen]

/-- Witness for `vadZero_spec` at the all-zero frame `[0, 0]`. -/
theorem vadZero_spec_witness :
    (∀ s ∈ ([0, 0] : List Int), s = 0) ∧
    vadIsSpeech ([0, 0] : List Int) = false ∧ rmsSquared ([0, 0] : List Int) = some 0 :=
  ⟨by decide,
   (vadZero_spec [0, 0] (by decide)).1,
   (vadZero_spec [0, 0] (by decide)).2.1 (by decide)⟩

/-- Claim C5, code bug, evaluated at the failing input `x = 0`: the
round trip `decode(encode(0))` yields 64, although the decoder
quantization step adjacent to zero is 8 (codes 0xFF and 0xFE decode to 0
and 8) — the near-zero round-trip error exceeds one quantization step by
a factor of eight. -/
theorem roundtrip_error_at_zero :
    mulawDecodeSample (pcm16ToMulawSample 0) = 64 ∧
    mulawDecodeSample 255 = 0 ∧ mulawDecodeSample 254 = 8 := by decide

/-- Claim C6, confirmed: when `finalizeTurn` runs on a non-empty buffer
and recognition fails or returns empty text, the turn aborts silently —
the conversation history is unchanged, the session is still listening,
and the only collaborator invocation is the recognition call itself (no
generation, no speaking); and on an empty buffer `finalizeTurn` is a
complete no-op. -/
theorem finalizeAbort_spec (st : SessState) (stt gen : Except Unit String)
    (hstt : sttText stt = "") (hl : st.listening = true) :
    (st.pcmBuffer ≠ [] →
      (finalizeTurn stt gen st).1.context = st.context ∧
      (finalizeTurn stt gen st).1.listening = true ∧
      (finalizeTurn stt gen st).2 = [TurnEvent.recognize st.pcmBuffer.flatten]) ∧
    (st.pcmBuffer = [] → finalizeTurn stt gen st = (st, [])) := by
  constructor
  · intro hne
    simp [finalizeTurn, hne, hstt, hl]
  · intro he
    simp [finalizeTurn, he]

/-- Witness for `finalizeAbort_spec`: a failed recognition on a concrete
non-empty buffer emits only the recognition event. -/
theorem finalizeAbort_spec_witness :
    (sttText (Except.error ()) = "" ∧
      (⟨true, true, [[5]], 12, [], false⟩ : SessState).listening = true) ∧
    (finalizeTurn (Except.error ()) (Except.ok "hi") ⟨true, true, [[5]], 12, [], false⟩).2
      = [TurnEvent.recognize [5]] := by
  refine ⟨⟨rfl, rfl⟩, ?_⟩
  have h := (finalizeAbort_spec ⟨true, true, [[5]], 12, [], false⟩
      (Except.error ()) (Except.ok "hi") rfl rfl).1 (by simp)
  simpa using h.2.2

/-- Claim C7, counterexample to the claim as stated: the claim covers the
Processing phase, but during the Processing window the code leaves
`listening` true (only `speakText` clears it), so a media frame arriving
while `finalizeTurn` awaits recognition or generation IS decoded and
accumulated.  Concretely, from a session that just entered Processing
(buffer drained from `[[5]]`, `heardAnySpeech` reset), an arriving frame
`[0x00]` changes `pcmBuffer` — `pendingAudio` is not left unchanged. -/
theorem processingWindow_counterexample :
    (mediaStep (finalizeDrainState ⟨true, false, [[5]], 12, [], false⟩) [0]).1.pcmBuffer
      ≠ (finalizeDrainState ⟨true, false, [[5]], 12, [], false⟩).pcmBuffer := by decide

/-- Claim C7, amended: an inbound media frame processed while the
`listening` flag is false — which in this code is exactly the Speaking
window, while a reply is being synthesized and streamed — leaves the
entire session state unchanged, in particular `pendingAudio`, and hands
nothing to the orchestrator.  During the Processing window, however
(after `finalizeTurn` has drained the buffer, while it awaits the
recognition and generation collaborators, with `listening` still true and
`heardAnySpeech` reset to false), an arriving frame is decoded and
appended to the freshly cleared `pendingAudio`, where it persists into
the next turn. -/
theorem mediaDuringTurn_spec (st : SessState) (mu : List Nat) :
    (st.listening = false → mediaStep st mu = (st, none)) ∧
    (st.listening = true → st.heardAnySpeech = false →
      (mediaStep (finalizeDrainState st) mu).1.pcmBuffer
        = (finalizeDrainState st).pcmBuffer ++ [decodeFrameSamples mu]) := by
  constructor
  · intro h
    simp [mediaStep, h]
  · intro hl hh
    have hpl : (finalizeDrainState st).listening = true := by
      unfold finalizeDrainState; split <;> simpa using hl
    have hph : (finalizeDrainState st).heardAnySpeech = false := by
      unfold finalizeDrainState; split <;> simpa using hh
    by_cases hv : vadIsSpeech (decodeFrameSamples mu) <;>
      simp [mediaStep, hpl, hph, hv]

/-- Witness for `mediaDuringTurn_spec`: both windows at concrete inputs —
a frame into a non-listening (Speaking) session changes nothing, and a
frame into the Processing-window state is appended to the buffer. -/
theorem mediaDuringTurn_spec_witness :
    ((⟨false, false, [], 0, [], false⟩ : SessState).listening = false ∧
      mediaStep ⟨false, false, [], 0, [], false⟩ [7]
        = (⟨false, false, [], 0, [], false⟩, none)) ∧
    ((⟨true, false, [[5]], 12, [], false⟩ : SessState).listening = true ∧
      (⟨true, false, [[5]], 12, [], false⟩ : SessState).heardAnySpeech = false ∧
      (mediaStep (finalizeDrainState ⟨true, false, [[5]], 12, [], false⟩) [7]).1.pcmBuffer
        = (finalizeDrainState ⟨true, false, [[5]], 12, [], false⟩).pcmBuffer
          ++ [decodeFrameSamples [7]]) :=
  ⟨⟨rfl, (mediaDuringTurn_spec ⟨false, false, [], 0, [], false⟩ [7]).1 rfl⟩,
   ⟨rfl, rfl, (mediaDuringTurn_spec ⟨true, false, [[5]], 12, [], false⟩ [7]).2 rfl rfl⟩⟩

/-- Claim C8, code bug, evaluated at the failing input (socket close while
a session with a pending nudge timer exists, with no preceding stop
message): the close handler clears only the keepalive interval, so the
nudge timer is still pending after the close — teardown by socket close
alone leaks the idle timer.  (The stop path does cancel it, and repeating
stop is harmless: `onStopMessage` is idempotent and stop after close
still cancels the timer.) -/
theorem close_leaves_nudgeTimer :
    onSocketClose ⟨true, true, true⟩ = ⟨false, true, true⟩ ∧
    (onSocketClose ⟨true, true, true⟩).nudgeTimerPending = true ∧
    onStopMessage (onStopMessage ⟨true, true, true⟩) = onStopMessage ⟨true, true, true⟩ ∧
    onStopMessage (onSocketClose ⟨true, true, true⟩) = ⟨false, false, false⟩ :=
  ⟨rfl, rfl, rfl, rfl⟩

/-- Claim C9, confirmed: the mu-law decoder always returns a byte buffer
of exactly twice the input length (one 16-bit little-endian sample per
input byte), and the empty input passes through as the empty output; the
function is total and deterministic. -/
theorem decode_expansion_spec (muBuf : List Nat) :
    (decodeMulawToPcm16 muBuf).length = 2 * muBuf.length ∧
    decodeMulawToPcm16 ([] : List Nat) = [] :=
  ⟨decodeMulawToPcm16_length muBuf, rfl⟩

/-- Claim C10, confirmed: for every input byte (and in fact every natural
number, the definition reducing its argument mod 256 exactly as the
`& 0xff` masks of the source do), the decoded sample lies in
`[-32124, 32124]`, hence always fits a signed 16-bit integer and the
per-sample `writeInt16LE` cannot fail: the decoder is total over
untrusted input. -/
theorem decoder_output_bounds (b : Nat) :
    -32124 ≤ mulawDecodeSample b ∧ mulawDecodeSample b ≤ 32124 ∧
    -32768 ≤ mulawDecodeSample b ∧ mulawDecodeSample b ≤ 32767 := by
  obtain ⟨h1, h2⟩ := mulawDecodeSample_bounds b
  exact ⟨h1, h2, by omega, by omega⟩
